import Mathlib

/-!
Shallow embedding of `src/server.js` (ChillFeed): an ephemeral content store
keeping posts, comments and likes as JSON documents in a remote versioned
file backend, visible for 24 hours and then swept.

Timestamps are modelled as integer milliseconds (`Date.now()` /
`new Date(s).getTime()`).  A stored document is a directory entry together
with its parse result: `content = none` models a file whose body
`JSON.parse` rejects.
-/

deriving instance DecidableEq for Except

namespace Chill

/-- `TTL_MS = 24 * 60 * 60 * 1000` (server.js line 26). -/
def TTL_MS : Int := 24 * 60 * 60 * 1000

/-- `cutoff = Date.now() - TTL_MS` as computed at the start of the feed,
like-dedup and cleanup handlers. -/
def cutoff (now : Int) : Int := now - TTL_MS

/-- One flat JSON entity.  Posts use `author`/`text`/`imageUrl`, comments use
`postId`/`user`/`text`, likes use `postId`/`user`; absent fields are `none`,
as in the untyped JS objects. -/
structure Entity where
  id : String
  author : Option String := none
  text : Option String := none
  imageUrl : Option String := none
  postId : Option String := none
  user : Option String := none
  createdAt : Int
deriving DecidableEq, Repr

/-- A directory entry as returned by the GitHub contents listing, paired with
the parse result of its body; `content = none` models a body that
`JSON.parse` throws on. -/
structure StoredFile where
  name : String
  ftype : String
  content : Option Entity
deriving DecidableEq, Repr

/-- `s.endsWith(suffix)`, expressed on the character sequences of the two
strings. -/
def strEndsWith (s suffix : String) : Bool :=
  suffix.data.isSuffixOf s.data

/-- The skip test used by every enumeration loop:
`it.type !== "file" || !it.name.endsWith(".json")` — an entry passes (is
processed) iff it is a file whose name ends in `.json`. -/
def isJsonFile (f : StoredFile) : Bool :=
  f.ftype == "file" && strEndsWith f.name ".json"

/-- Feed retention test, server.js line 111:
`new Date(p.createdAt).getTime() >= cutoff`. -/
def feedVisibleTest (t c : Int) : Bool := decide (c ≤ t)

/-- `listBy` retention test, server.js line 137 (also the like-dedup scan):
`new Date(obj.createdAt).getTime() >= cutoff`. -/
def listByVisibleTest (t c : Int) : Bool := decide (c ≤ t)

/-- Cleanup expiry test, server.js line 211:
`new Date(obj.createdAt).getTime() < cutoff`. -/
def sweepExpiredTest (t c : Int) : Bool := decide (t < c)

/-- Ascending comparator used on comments:
`(a, b) => new Date(a.createdAt) - new Date(b.createdAt)`. -/
def ascRel (a b : Entity) : Prop := a.createdAt ≤ b.createdAt

/-- Descending comparator used on posts:
`(a, b) => new Date(b.createdAt) - new Date(a.createdAt)`. -/
def descRel (a b : Entity) : Prop := b.createdAt ≤ a.createdAt

instance : DecidableRel ascRel := fun a b =>
  inferInstanceAs (Decidable (a.createdAt ≤ b.createdAt))

instance : DecidableRel descRel := fun a b =>
  inferInstanceAs (Decidable (b.createdAt ≤ a.createdAt))

instance : IsTotal Entity ascRel := ⟨fun a b => Int.le_total a.createdAt b.createdAt⟩

instance : IsTrans Entity ascRel := ⟨fun _ _ _ h h' => le_trans h h'⟩

instance : IsTotal Entity descRel := ⟨fun a b => Int.le_total b.createdAt a.createdAt⟩

instance : IsTrans Entity descRel := ⟨fun _ _ _ h h' => le_trans h' h⟩

/-- The enumeration loop of `listBy(folder, key, value, cutoff)` with
`key = "postId"` (its only use): skip non-`.json` entries, parse each body
(a parse failure throws and aborts the whole call), keep entities whose
`postId` matches and whose timestamp passes the window test. -/
def listByCollect (value : String) (c : Int) : List StoredFile → Except String (List Entity)
  | [] => .ok []
  | f :: rest =>
    if isJsonFile f then
      match f.content with
      | none => .error "JSON parse error"
      | some obj =>
        (listByCollect value c rest).map
          (fun l => if obj.postId == some value && listByVisibleTest obj.createdAt c then obj :: l else l)
    else listByCollect value c rest

/-- `listBy`: the collection loop followed by the ascending sort
(server.js line 142). -/
def listBy (folder : List StoredFile) (value : String) (c : Int) : Except String (List Entity) :=
  (listByCollect value c folder).map (List.insertionSort ascRel)

/-- `countBy` = `(await listBy(...)).length`. -/
def countBy (folder : List StoredFile) (value : String) (c : Int) : Except String Nat :=
  (listBy folder value c).map List.length

/-- The post-collection loop of the feed handler (server.js lines 107-112):
skip non-`.json` entries, parse (failure aborts), keep posts passing the
window test. -/
def collectPosts (c : Int) : List StoredFile → Except String (List Entity)
  | [] => .ok []
  | f :: rest =>
    if isJsonFile f then
      match f.content with
      | none => .error "JSON parse error"
      | some p =>
        (collectPosts c rest).map
          (fun l => if feedVisibleTest p.createdAt c then p :: l else l)
    else collectPosts c rest

/-- One element of the feed response: the post plus the attached
`likes` count, `comments` list and `commentCount`. -/
structure FeedPost where
  post : Entity
  likes : Nat
  comments : List Entity
  commentCount : Nat
deriving DecidableEq, Repr

/-- The attachment loop of the feed handler (server.js lines 117-121):
for each retained post, `likes = countBy("likes", ...)`,
`comments = listBy("comments", ...)`, `commentCount = comments.length`. -/
def attachCounts (likesF commentsF : List StoredFile) (c : Int) :
    List Entity → Except String (List FeedPost)
  | [] => .ok []
  | p :: rest =>
    match countBy likesF p.id c with
    | .error e => .error e
    | .ok lk =>
      match listBy commentsF p.id c with
      | .error e => .error e
      | .ok cs =>
        match attachCounts likesF commentsF c rest with
        | .error e => .error e
        | .ok tail =>
          .ok ({ post := p, likes := lk, comments := cs, commentCount := cs.length } :: tail)

/-- `GET /api/feed` (server.js lines 101-127): fix `cutoff` once, collect the
visible posts, sort newest first, attach counts.  Any thrown error (parse
failure) aborts the whole handler with a 500 and no partial result. -/
def getFeed (postsF likesF commentsF : List StoredFile) (now : Int) :
    Except String (List FeedPost) :=
  match collectPosts (cutoff now) postsF with
  | .error e => .error e
  | .ok ps => attachCounts likesF commentsF (cutoff now) (List.insertionSort descRel ps)

/-- One folder pass of `POST /api/cleanup` (server.js lines 204-216): skip
non-`.json` entries (they stay), parse each body (failure throws), delete the
document when its timestamp is strictly below the cutoff and count it,
otherwise keep it.  Returns the surviving folder and the deletion count. -/
def sweepFolder (c : Int) : List StoredFile → Except String (List StoredFile × Nat)
  | [] => .ok ([], 0)
  | f :: rest =>
    if isJsonFile f then
      match f.content with
      | none => .error "JSON parse error"
      | some obj =>
        if sweepExpiredTest obj.createdAt c then
          (sweepFolder c rest).map (fun p => (p.1, p.2 + 1))
        else
          (sweepFolder c rest).map (fun p => (f :: p.1, p.2))
    else (sweepFolder c rest).map (fun p => (f :: p.1, p.2))

/-- The three collection folders, `data/posts`, `data/comments`,
`data/likes`. -/
structure StoreState where
  posts : List StoredFile
  comments : List StoredFile
  likes : List StoredFile
deriving DecidableEq, Repr

/-- `POST /api/cleanup` (server.js lines 199-222): fix `cutoff` once, sweep
`posts`, `comments`, `likes` in that order, return the total deleted; any
thrown error aborts the handler. -/
def sweep (st : StoreState) (now : Int) : Except String (StoreState × Nat) :=
  match sweepFolder (cutoff now) st.posts with
  | .error e => .error e
  | .ok p =>
    match sweepFolder (cutoff now) st.comments with
    | .error e => .error e
    | .ok co =>
      match sweepFolder (cutoff now) st.likes with
      | .error e => .error e
      | .ok l => .ok (⟨p.1, co.1, l.1⟩, p.2 + co.2 + l.2)

/-- Number of processed (file, `.json`) entries of a folder whose parsed
timestamp is expired relative to `c`. -/
def expiredCount (c : Int) (l : List StoredFile) : Nat :=
  (l.filter (fun f =>
    isJsonFile f &&
      (match f.content with
       | some o => sweepExpiredTest o.createdAt c
       | none => false))).length

/-- JS truthiness of a request-body field holding `undefined`, `null` or a
string: `!x` is true exactly for a missing field or the empty string. -/
def truthy : Option String → Bool
  | none => false
  | some s => !(s == "")

/-- `<id>.json`, the file name a created entity is stored under. -/
def mkFileName (id : String) : String := id ++ ".json"

/-- Result of `POST /api/posts` / `POST /api/comments`. -/
inductive PostResult where
  | validationError
  | created (e : Entity)
deriving DecidableEq, Repr

/-- `POST /api/posts` (server.js lines 151-163): validate `author`/`text`
truthy (else 400 and no write); build the post with a fresh id, the current
timestamp and `imageUrl: imageUrl || null`; store it at
`posts/<id>.json`. -/
def createPost (postsF : List StoredFile) (author text imageUrl : Option String)
    (freshId : String) (now : Int) : PostResult × List StoredFile :=
  if !truthy author || !truthy text then (.validationError, postsF)
  else
    let post : Entity :=
      { id := freshId, author := author, text := text,
        imageUrl := if truthy imageUrl then imageUrl else none, createdAt := now }
    (.created post, postsF ++ [⟨mkFileName freshId, "file", some post⟩])

/-- `POST /api/comments` (server.js lines 165-177): validate
`postId`/`user`/`text` truthy (else 400 and no write); store the comment at
`comments/<id>.json`. -/
def createComment (commentsF : List StoredFile) (postId user text : Option String)
    (freshId : String) (now : Int) : PostResult × List StoredFile :=
  if !truthy postId || !truthy user || !truthy text then (.validationError, commentsF)
  else
    let comment : Entity :=
      { id := freshId, postId := postId, user := user, text := text, createdAt := now }
    (.created comment, commentsF ++ [⟨mkFileName freshId, "file", some comment⟩])

/-- Result of `POST /api/likes`. -/
inductive LikeResult where
  | validationError
  | duplicate
  | created (e : Entity)
deriving DecidableEq, Repr

/-- `POST /api/likes` (server.js lines 179-196): validate `postId`/`user`
truthy (else 400 and no write); list the currently-visible likes of the post
(`listBy` with `cutoff` fixed once for the call — a parse failure aborts);
if one carries the same `user`, answer with a duplicate marker and write
nothing; otherwise store a new like at `likes/<id>.json`. -/
def createLike (likesF : List StoredFile) (postId user : Option String)
    (freshId : String) (now : Int) : Except String (LikeResult × List StoredFile) :=
  if !truthy postId || !truthy user then .ok (.validationError, likesF)
  else
    match listBy likesF (postId.getD "") (cutoff now) with
    | .error e => .error e
    | .ok existing =>
      match existing.find? (fun x => x.user == user) with
      | some _ => .ok (.duplicate, likesF)
      | none =>
        let like : Entity := { id := freshId, postId := postId, user := user, createdAt := now }
        .ok (.created like, likesF ++ [⟨mkFileName freshId, "file", some like⟩])

/-- `ghGet` on a collection folder followed by `JSON.parse`: look up the
document stored under `<id>.json` and return its parse result. -/
def getById (folder : List StoredFile) (id : String) : Option Entity :=
  match folder.find? (fun f => f.name == mkFileName id) with
  | some f => f.content
  | none => none

/-- A backend file: its current version token (git blob sha) and content. -/
structure FileRecord where
  sha : String
  content : String
deriving DecidableEq, Repr

/-- The remote versioned store: path to current file record. -/
abbrev Backend := List (String × FileRecord)

/-- `ghGet` (server.js lines 47-54) against a backend snapshot: `none` models
the 404 case. -/
def ghGetB (b : Backend) (p : String) : Option FileRecord :=
  (b.find? (fun kv => kv.1 == p)).map Prod.snd

/-- Modelled from the spec (§6), code of the remote backend being outside the
repository: `putFile(filePath, content, versionToken | absent, message)`
commits when the supplied token matches the backend's current token (absent
token allowed only for a new file) and fails with `Conflict` when it does
not. -/
def backendPut (b : Backend) (p content : String) (sha : Option String)
    (newSha : String) : Except String Backend :=
  match ghGetB b p with
  | none =>
    match sha with
    | none => .ok (b ++ [(p, ⟨newSha, content⟩)])
    | some _ => .error "GitHub put error: 422"
  | some cur =>
    if sha == some cur.sha then
      .ok (b.map (fun kv => if kv.1 == p then (p, ⟨newSha, content⟩) else kv))
    else .error "GitHub put error: 409 Conflict"

/-- `ghPut` (server.js lines 56-71): read the current version token from the
backend (omitting it when the document is new), then issue one PUT tagged
with that token.  `bRead` is the backend at the internal read, `bWrite` the
backend at the write — they differ when a concurrent writer committed in
between.  A rejected write surfaces as the thrown error; there is no retry. -/
def ghPut (bRead bWrite : Backend) (p content newSha : String) : Except String Backend :=
  backendPut bWrite p content ((ghGetB bRead p).map FileRecord.sha) newSha

/-- Concrete expired document for the sweep witness. -/
def expiredFileW : StoredFile :=
  ⟨"a1.json", "file", some { id := "a1", author := some "alice", text := some "hi", createdAt := 1000 }⟩

/-- Concrete fresh document for the sweep witness. -/
def freshFileW : StoredFile :=
  ⟨"b2.json", "file", some { id := "b2", author := some "bob", text := some "yo", createdAt := 99000000 }⟩

/-- The post stored by the round-trip witness. -/
def postEntW : Entity :=
  { id := "id1", author := some "alice", text := some "hi",
    imageUrl := some "http://x", createdAt := 42 }

/-- A visible like by bob on post p1, for the dedup witnesses. -/
def likeEntW : Entity :=
  { id := "l1", postId := some "p1", user := some "bob", createdAt := 99000000 }

/-- Likes folder holding exactly `likeEntW`. -/
def likesFW : List StoredFile := [⟨"l1.json", "file", some likeEntW⟩]

/-- A directory entry that is a file but not `.json`; its body would not even
parse, which the enumeration loops never notice because they skip it. -/
def txtFileW : StoredFile := ⟨"notes.txt", "file", none⟩

/-- A `.json` file entry whose body fails to parse. -/
def badFileW : StoredFile := ⟨"bad.json", "file", none⟩

/-- Spec-side view of a folder: the parsed entities of its processed
(file, `.json`) entries, in directory order, parse failures dropped. -/
def parsedDocs (folder : List StoredFile) : List Entity :=
  folder.filterMap (fun f => if isJsonFile f then f.content else none)

/-- Spec-side description of `listBy`'s selection: the currently-visible
stored entities whose `postId` matches `v`. -/
def specMatching (folder : List StoredFile) (v : String) (c : Int) : List Entity :=
  (parsedDocs folder).filter
    (fun o => o.postId == some v && listByVisibleTest o.createdAt c)

/-- Spec-side description of the feed's retention: the currently-visible
stored posts. -/
def visiblePostsSpec (folder : List StoredFile) (c : Int) : List Entity :=
  (parsedDocs folder).filter (fun p => feedVisibleTest p.createdAt c)

/-- A stored post with the given id and timestamp. -/
def postEnt (i : String) (t : Int) : Entity :=
  { id := i, author := some "a", text := some "x", createdAt := t }

/-- The file holding `postEnt i t` in the posts folder. -/
def postFile (i : String) (t : Int) : StoredFile :=
  ⟨i ++ ".json", "file", some (postEnt i t)⟩

/-- The feed element of a post with no likes and no comments. -/
def bareFeedPost (i : String) (t : Int) : FeedPost :=
  { post := postEnt i t, likes := 0, comments := [], commentCount := 0 }

/-- Posts folder of the feed-ordering witness: three in-window posts listed
out of order plus one 25h-old post. -/
def postsW : List StoredFile :=
  [postFile "p2" 30000000, postFile "p0" 10000000,
   postFile "p3" 40000000, postFile "p1" 20000000]

/-- Expected feed for `postsW` at `now = 100000000`. -/
def fpsW : List FeedPost :=
  [bareFeedPost "p3" 40000000, bareFeedPost "p2" 30000000, bareFeedPost "p1" 20000000]

/-- A stored comment by bob on post p1. -/
def comEnt (i : String) (t : Int) : Entity :=
  { id := i, postId := some "p1", user := some "bob", text := some "hey", createdAt := t }

/-- Comments folder of the aggregation witness: two visible comments on p1,
listed newest first. -/
def commentsFW : List StoredFile :=
  [⟨"c1.json", "file", some (comEnt "c1" 25000000)⟩,
   ⟨"c2.json", "file", some (comEnt "c2" 24000000)⟩]

/-- Expected feed element of the aggregation witness: one like, the two
comments oldest first. -/
def fpW3 : FeedPost :=
  { post := postEnt "p1" 20000000, likes := 1,
    comments := [comEnt "c2" 24000000, comEnt "c1" 25000000], commentCount := 2 }

end Chill

namespace Chill

/-- `isVisible` as the spec words it in §4.3/§8 for comparison: the claim
reads `now - t < 24h` (strict); the code's three sites all use
`t >= now - 24h`. -/
def specStrictVisible (t now : Int) : Prop := now - t < TTL_MS

/-- C1 counterexample input: `now = TTL_MS`, `t = 0`, an entity whose age is
exactly 24h. -/
theorem feed_boundary_cex :
    ¬ ((feedVisibleTest 0 (cutoff 86400000) = true) ↔ specStrictVisible 0 86400000) := by
  unfold specStrictVisible
  decide

/-- C1 (amended): all three window tests (feed line 111, listBy line 137 used
by the like-dedup scan, cleanup line 211) classify a timestamp consistently,
and an entity is visible iff its age is at most 24h — the boundary at exactly
24h is included (visible), not excluded. -/
theorem window_tests_consistent (t now : Int) :
    (feedVisibleTest t (cutoff now) = true ↔ now - t ≤ TTL_MS) ∧
    listByVisibleTest t (cutoff now) = feedVisibleTest t (cutoff now) ∧
    sweepExpiredTest t (cutoff now) = !(feedVisibleTest t (cutoff now)) := by
  refine ⟨?_, rfl, ?_⟩
  · simp only [feedVisibleTest, cutoff, decide_eq_true_eq]
    omega
  · simp only [sweepExpiredTest, feedVisibleTest, cutoff]
    by_cases h : now - TTL_MS ≤ t
    · simp [h, not_lt.mpr h]
    · simp [h, lt_of_not_le h]

/-- Witness for `window_tests_consistent` at `t = 5`, `now = 86400005`. -/
theorem window_tests_consistent_witness :
    (feedVisibleTest 5 (cutoff 86400005) = true ↔ (86400005 : Int) - 5 ≤ TTL_MS) ∧
    listByVisibleTest 5 (cutoff 86400005) = feedVisibleTest 5 (cutoff 86400005) ∧
    sweepExpiredTest 5 (cutoff 86400005) = !(feedVisibleTest 5 (cutoff 86400005)) :=
  window_tests_consistent 5 86400005

/-- Inversion of `Except.map` on a successful result. -/
theorem map_eq_ok {α β : Type} {g : α → β} {x : Except String α} {b : β}
    (h : Except.map g x = .ok b) : ∃ a, x = .ok a ∧ g a = b := by
  cases x with
  | error e => simp [Except.map] at h
  | ok a => exact ⟨a, rfl, by simpa [Except.map] using h⟩

/-- A successful folder sweep deletes exactly the expired processed entries. -/
theorem sweepFolder_count {c : Int} : ∀ {l l' : List StoredFile} {n : Nat},
    sweepFolder c l = .ok (l', n) → n = expiredCount c l := by
  intro l
  induction l with
  | nil =>
    intro l' n h
    simp only [sweepFolder, Except.ok.injEq, Prod.mk.injEq] at h
    simp [expiredCount, ← h.2]
  | cons f rest ih =>
    intro l' n h
    by_cases hj : isJsonFile f
    · cases hc : f.content with
      | none => simp [sweepFolder, hj, hc] at h
      | some obj =>
        cases he : sweepExpiredTest obj.createdAt c with
        | true =>
          simp only [sweepFolder, hj, if_true, hc, he] at h
          obtain ⟨⟨l'', m⟩, hp, hg⟩ := map_eq_ok h
          simp only [Prod.mk.injEq] at hg
          simp [expiredCount, hj, hc, he, ← hg.2, ih hp, List.filter_cons]
        | false =>
          simp only [sweepFolder, hj, if_true, hc, he] at h
          obtain ⟨⟨l'', m⟩, hp, hg⟩ := map_eq_ok h
          simp only [Prod.mk.injEq] at hg
          simp [expiredCount, hj, hc, he, ← hg.2, ih hp, List.filter_cons]
    · simp only [sweepFolder, hj, if_false] at h
      obtain ⟨⟨l'', m⟩, hp, hg⟩ := map_eq_ok h
      simp only [Prod.mk.injEq] at hg
      simp [expiredCount, hj, ← hg.2, ih hp, List.filter_cons]

/-- Every entry surviving a successful folder sweep is either skipped or
parses to a non-expired entity. -/
theorem sweepFolder_mem {c : Int} : ∀ {l l' : List StoredFile} {n : Nat},
    sweepFolder c l = .ok (l', n) → ∀ f ∈ l', isJsonFile f = true →
      ∃ o, f.content = some o ∧ sweepExpiredTest o.createdAt c = false := by
  intro l
  induction l with
  | nil =>
    intro l' n h f hf
    simp only [sweepFolder, Except.ok.injEq, Prod.mk.injEq] at h
    rw [← h.1] at hf
    exact absurd hf (List.not_mem_nil f)
  | cons g rest ih =>
    intro l' n h f hf hjf
    by_cases hj : isJsonFile g
    · cases hc : g.content with
      | none => simp [sweepFolder, hj, hc] at h
      | some obj =>
        cases he : sweepExpiredTest obj.createdAt c with
        | true =>
          simp only [sweepFolder, hj, if_true, hc, he] at h
          obtain ⟨⟨l'', m⟩, hp, hg⟩ := map_eq_ok h
          simp only [Prod.mk.injEq] at hg
          exact ih hp f (hg.1 ▸ hf) hjf
        | false =>
          simp only [sweepFolder, hj, if_true, hc, he] at h
          obtain ⟨⟨l'', m⟩, hp, hg⟩ := map_eq_ok h
          simp only [Prod.mk.injEq] at hg
          rw [← hg.1] at hf
          rcases List.mem_cons.mp hf with rfl | hf'
          · exact ⟨obj, hc, he⟩
          · exact ih hp f hf' hjf
    · simp only [sweepFolder, hj, if_false] at h
      obtain ⟨⟨l'', m⟩, hp, hg⟩ := map_eq_ok h
      simp only [Prod.mk.injEq] at hg
      rw [← hg.1] at hf
      rcases List.mem_cons.mp hf with rfl | hf'
      · exact absurd hjf (by simp [hj])
      · exact ih hp f hf' hjf

/-- A folder whose every processed entry parses to a non-expired entity is a
fixed point of the sweep, with 0 deletions. -/
theorem sweepFolder_stable {c : Int} : ∀ {l : List StoredFile},
    (∀ f ∈ l, isJsonFile f = true →
       ∃ o, f.content = some o ∧ sweepExpiredTest o.createdAt c = false) →
    sweepFolder c l = .ok (l, 0) := by
  intro l
  induction l with
  | nil => intro _; rfl
  | cons f rest ih =>
    intro hall
    have hrest := ih (fun g hg => hall g (List.mem_cons_of_mem f hg))
    by_cases hj : isJsonFile f
    · obtain ⟨o, hc, he⟩ := hall f (List.mem_cons_self f rest) hj
      simp [sweepFolder, hj, hc, he, hrest, Except.map]
    · simp [sweepFolder, hj, hrest, Except.map]

/-- C4: a successful `sweep` deletes exactly the documents whose timestamp is
expired relative to the single cutoff fixed at sweep start, returns their
count, leaves no expired document behind, and a second sweep of the resulting
state (same `now`, no intervening writes) deletes 0 documents. -/
theorem sweep_deletes_expired_and_is_idempotent (st st' : StoreState) (now : Int) (n : Nat)
    (h : sweep st now = .ok (st', n)) :
    n = expiredCount (cutoff now) st.posts + expiredCount (cutoff now) st.comments +
        expiredCount (cutoff now) st.likes ∧
    (∀ f, (f ∈ st'.posts ∨ f ∈ st'.comments ∨ f ∈ st'.likes) → isJsonFile f = true →
       ∃ o, f.content = some o ∧ sweepExpiredTest o.createdAt (cutoff now) = false) ∧
    sweep st' now = .ok (st', 0) := by
  cases hp : sweepFolder (cutoff now) st.posts with
  | error e => simp [sweep, hp] at h
  | ok p =>
    cases hco : sweepFolder (cutoff now) st.comments with
    | error e => simp [sweep, hp, hco] at h
    | ok co =>
      cases hl : sweepFolder (cutoff now) st.likes with
      | error e => simp [sweep, hp, hco, hl] at h
      | ok l =>
        simp only [sweep, hp, hco, hl, Except.ok.injEq, Prod.mk.injEq] at h
        obtain ⟨hst, hn⟩ := h
        have hpc : p.snd = expiredCount (cutoff now) st.posts := sweepFolder_count hp
        have hcoc : co.snd = expiredCount (cutoff now) st.comments := sweepFolder_count hco
        have hlc : l.snd = expiredCount (cutoff now) st.likes := sweepFolder_count hl
        have hmem : ∀ f, (f ∈ st'.posts ∨ f ∈ st'.comments ∨ f ∈ st'.likes) →
            isJsonFile f = true →
            ∃ o, f.content = some o ∧ sweepExpiredTest o.createdAt (cutoff now) = false := by
          intro f hf hjf
          rw [← hst] at hf
          rcases hf with hf | hf | hf
          · exact sweepFolder_mem hp f hf hjf
          · exact sweepFolder_mem hco f hf hjf
          · exact sweepFolder_mem hl f hf hjf
        refine ⟨by rw [← hn, hpc, hcoc, hlc], hmem, ?_⟩
        have h1 : sweepFolder (cutoff now) st'.posts = .ok (st'.posts, 0) :=
          sweepFolder_stable (fun f hf => hmem f (Or.inl hf))
        have h2 : sweepFolder (cutoff now) st'.comments = .ok (st'.comments, 0) :=
          sweepFolder_stable (fun f hf => hmem f (Or.inr (Or.inl hf)))
        have h3 : sweepFolder (cutoff now) st'.likes = .ok (st'.likes, 0) :=
          sweepFolder_stable (fun f hf => hmem f (Or.inr (Or.inr hf)))
        simp [sweep, h1, h2, h3]

/-- Witness for `sweep_deletes_expired_and_is_idempotent`: one expired post is
deleted, the fresh one survives, and the second sweep deletes nothing. -/
theorem sweep_deletes_expired_and_is_idempotent_witness :
    1 = expiredCount (cutoff 100000000) [expiredFileW, freshFileW] +
        expiredCount (cutoff 100000000) [] + expiredCount (cutoff 100000000) [] ∧
    (∀ f, (f ∈ [freshFileW] ∨ f ∈ ([] : List StoredFile) ∨ f ∈ ([] : List StoredFile)) →
       isJsonFile f = true →
       ∃ o, f.content = some o ∧ sweepExpiredTest o.createdAt (cutoff 100000000) = false) ∧
    sweep ⟨[freshFileW], [], []⟩ 100000000 = .ok (⟨[freshFileW], [], []⟩, 0) :=
  sweep_deletes_expired_and_is_idempotent ⟨[expiredFileW, freshFileW], [], []⟩
    ⟨[freshFileW], [], []⟩ 100000000 1 (by decide)

/-- C5: if post `p` is already liked by `u` among the currently-visible likes
(the `listBy` scan with `now` fixed once), a second `createLike(p, u)` answers
with the duplicate marker and leaves the likes folder — hence the store's
like count for `p` — unchanged. -/
theorem createLike_dedup (likesF : List StoredFile) (p u freshId : String) (now : Int)
    (ex : List Entity) (x : Entity)
    (hp : p ≠ "") (hu : u ≠ "")
    (hlist : listBy likesF p (cutoff now) = .ok ex)
    (hx : x ∈ ex) (hxu : x.user = some u) :
    createLike likesF (some p) (some u) freshId now = .ok (.duplicate, likesF) := by
  have htp : truthy (some p) = true := by simp [truthy, hp]
  have htu : truthy (some u) = true := by simp [truthy, hu]
  have hfind : (ex.find? (fun y => y.user == some u)).isSome := by
    rw [List.find?_isSome]
    exact ⟨x, hx, by simp [hxu]⟩
  obtain ⟨y, hy⟩ := Option.isSome_iff_exists.mp hfind
  simp [createLike, htp, htu, Option.getD, hlist, hy]

/-- Witness for `createLike_dedup`: bob likes p1 a second time. -/
theorem createLike_dedup_witness :
    createLike likesFW (some "p1") (some "bob") "l2" 100000000 = .ok (.duplicate, likesFW) :=
  createLike_dedup likesFW "p1" "bob" "l2" 100000000 [likeEntW] likeEntW
    (by decide) (by decide) (by decide) (by decide) (by decide)

/-- C7: `ghPut` is a read-modify-write: it writes tagged with the version
token it just fetched (omitting the token when the document is new), and if
the backend's token changed between the internal read and the write, the
single write attempt is rejected and the `Conflict` rejection is returned to
the caller unchanged — no retry produces a success. -/
theorem ghPut_read_modify_write (bRead bWrite : Backend) (p content newSha : String) :
    (ghGetB bRead p = none →
       ghPut bRead bWrite p content newSha = backendPut bWrite p content none newSha) ∧
    (∀ cur, ghGetB bRead p = some cur →
       ghPut bRead bWrite p content newSha = backendPut bWrite p content (some cur.sha) newSha) ∧
    (∀ cur, ghGetB bWrite p = some cur →
       (ghGetB bRead p).map FileRecord.sha ≠ some cur.sha →
       ghPut bRead bWrite p content newSha = .error "GitHub put error: 409 Conflict") := by
  refine ⟨fun h => by simp [ghPut, h], fun cur h => by simp [ghPut, h], ?_⟩
  intro cur hw hne
  simp [ghPut, backendPut, hw, hne]

/-- Witness for `ghPut_read_modify_write`: a concurrent writer moved the
token from s1 to s2 between the read and the write. -/
theorem ghPut_read_modify_write_witness :
    ghPut [("a", ⟨"s1", "old"⟩)] [("a", ⟨"s2", "new"⟩)] "a" "c" "s3" =
      .error "GitHub put error: 409 Conflict" :=
  (ghPut_read_modify_write [("a", ⟨"s1", "old"⟩)] [("a", ⟨"s2", "new"⟩)] "a" "c" "s3").2.2
    ⟨"s2", "new"⟩ (by decide) (by decide)

/-- C8 counterexample input: postId p1 / user bob are both non-empty (valid),
yet `createLike` on a store already holding that visible like persists no
entity — it answers with the duplicate marker, refuting "otherwise it
persists the entity". -/
theorem createLike_valid_not_persisted_cex :
    ¬ ∃ e st, createLike likesFW (some "p1") (some "bob") "l2" 100000000 =
        Except.ok (LikeResult.created e, st) := by
  rintro ⟨e, st, h⟩
  have hev : createLike likesFW (some "p1") (some "bob") "l2" 100000000 =
      Except.ok (LikeResult.duplicate, likesFW) := by decide
  rw [hev] at h
  exact LikeResult.noConfusion (congrArg Prod.fst (Except.ok.inj h))

/-- C8 (amended): each create operation fails with a validation error,
writing nothing, iff one of its required fields (author/text for posts,
postId/user/text for comments, postId/user for likes) is empty or missing;
otherwise posts and comments are persisted, and a like is persisted unless a
currently-visible like by the same user exists, in which case the duplicate
marker is returned and nothing is written. -/
theorem create_validation_gate (postsF commentsF likesF : List StoredFile)
    (a t i pid u ct : Option String) (fid : String) (now : Int) :
    ((createPost postsF a t i fid now).1 = .validationError ∧
        (createPost postsF a t i fid now).2 = postsF ↔
      truthy a = false ∨ truthy t = false) ∧
    (truthy a = true → truthy t = true →
      ∃ e, createPost postsF a t i fid now =
        (.created e, postsF ++ [⟨mkFileName fid, "file", some e⟩])) ∧
    ((createComment commentsF pid u ct fid now).1 = .validationError ∧
        (createComment commentsF pid u ct fid now).2 = commentsF ↔
      truthy pid = false ∨ truthy u = false ∨ truthy ct = false) ∧
    (truthy pid = true → truthy u = true → truthy ct = true →
      ∃ e, createComment commentsF pid u ct fid now =
        (.created e, commentsF ++ [⟨mkFileName fid, "file", some e⟩])) ∧
    (createLike likesF pid u fid now = .ok (.validationError, likesF) ↔
      truthy pid = false ∨ truthy u = false) ∧
    (truthy pid = true → truthy u = true →
      ∀ ex, listBy likesF (pid.getD "") (cutoff now) = .ok ex →
        ((∃ x ∈ ex, x.user == u) →
            createLike likesF pid u fid now = .ok (.duplicate, likesF)) ∧
        ((∀ x ∈ ex, ¬ (x.user == u)) →
            ∃ e, createLike likesF pid u fid now =
              .ok (.created e, likesF ++ [⟨mkFileName fid, "file", some e⟩]))) := by
  refine ⟨?_, ?_, ?_, ?_, ?_, ?_⟩
  · cases ha : truthy a <;> cases ht : truthy t <;> simp [createPost, ha, ht]
  · intro ha ht
    refine ⟨{ id := fid, author := a, text := t,
              imageUrl := if truthy i then i else none, createdAt := now }, ?_⟩
    simp [createPost, ha, ht]
  · cases h1 : truthy pid <;> cases h2 : truthy u <;> cases h3 : truthy ct <;>
      simp [createComment, h1, h2, h3]
  · intro h1 h2 h3
    refine ⟨{ id := fid, postId := pid, user := u, text := ct, createdAt := now }, ?_⟩
    simp [createComment, h1, h2, h3]
  · cases h1 : truthy pid with
    | false => simp [createLike, h1]
    | true =>
      cases h2 : truthy u with
      | false => simp [createLike, h1, h2]
      | true =>
        constructor
        · intro hv
          exfalso
          cases hlb : listBy likesF (pid.getD "") (cutoff now) with
          | error e => simp [createLike, h1, h2, hlb] at hv
          | ok ex =>
            cases hf : ex.find? (fun x => x.user == u) with
            | some y => simp [createLike, h1, h2, hlb, hf] at hv
            | none => simp [createLike, h1, h2, hlb, hf] at hv
        · intro hor
          rcases hor with h | h <;> exact Bool.noConfusion h
  · intro h1 h2 ex hlb
    constructor
    · rintro ⟨x, hx, hxu⟩
      have hfind : (ex.find? (fun y => y.user == u)).isSome := by
        rw [List.find?_isSome]
        exact ⟨x, hx, hxu⟩
      obtain ⟨y, hy⟩ := Option.isSome_iff_exists.mp hfind
      simp [createLike, h1, h2, hlb, hy]
    · intro hall
      have hf : ex.find? (fun y => y.user == u) = none :=
        List.find?_eq_none.mpr (fun x hx => by simpa using hall x hx)
      refine ⟨{ id := fid, postId := pid, user := u, createdAt := now }, ?_⟩
      simp [createLike, h1, h2, hlb, hf]

/-- Witness for `create_validation_gate`: a valid post and comment are
persisted, and a duplicate like is answered with the marker. -/
theorem create_validation_gate_witness :
    (∃ e, createPost [] (some "alice") (some "hi") none "id9" 100 =
      (.created e, [] ++ [⟨mkFileName "id9", "file", some e⟩])) ∧
    (∃ e, createComment [] (some "p1") (some "bob") (some "hey") "id9" 100 =
      (.created e, [] ++ [⟨mkFileName "id9", "file", some e⟩])) ∧
    createLike likesFW (some "p1") (some "bob") "l9" 100000000 = .ok (.duplicate, likesFW) := by
  refine ⟨?_, ?_, ?_⟩
  · exact (create_validation_gate [] [] [] (some "alice") (some "hi") none (some "p1")
      (some "bob") (some "hey") "id9" 100).2.1 (by decide) (by decide)
  · exact (create_validation_gate [] [] [] (some "alice") (some "hi") none (some "p1")
      (some "bob") (some "hey") "id9" 100).2.2.2.1 (by decide) (by decide) (by decide)
  · exact ((create_validation_gate [] [] likesFW (some "alice") (some "hi") none (some "p1")
      (some "bob") (some "hey") "l9" 100000000).2.2.2.2.2 (by decide) (by decide)
      [likeEntW] (by decide)).1 ⟨likeEntW, by decide, by decide⟩

/-- C9 counterexample input: `imageUrl = ""` is a valid create-post input
(only author/text are validated), but `imageUrl || null` stores `null`, so
the document read back does not carry the caller-supplied `imageUrl`. -/
theorem createPost_imageUrl_cex :
    ¬ ((getById (createPost [] (some "alice") (some "hi") (some "") "id1" 0).2 "id1").map
        Entity.imageUrl = some (some "")) := by
  decide

/-- `find?` skips a prefix on which the predicate fails everywhere. -/
theorem find?_append_none {α : Type} {p : α → Bool} {l1 : List α} (l2 : List α)
    (h : l1.find? p = none) : (l1 ++ l2).find? p = l2.find? p := by
  induction l1 with
  | nil => simp
  | cons a l ih =>
    cases hpa : p a with
    | true =>
      rw [List.find?_cons_of_pos _ hpa] at h
      exact Option.noConfusion h
    | false =>
      rw [List.find?_cons_of_neg _ (by simp [hpa])] at h
      rw [List.cons_append, List.find?_cons_of_neg _ (by simp [hpa])]
      exact ih h

/-- Reading back the document just appended under a fresh identifier. -/
theorem getById_append {folder : List StoredFile} {fid : String} (e : Entity)
    (hfresh : ∀ f ∈ folder, (f.name == mkFileName fid) = false) :
    getById (folder ++ [⟨mkFileName fid, "file", some e⟩]) fid = some e := by
  have hnone : folder.find? (fun f => f.name == mkFileName fid) = none :=
    List.find?_eq_none.mpr (fun f hf => by simp [hfresh f hf])
  unfold getById
  rw [find?_append_none _ hnone]
  simp

/-- A name produced by `mkFileName` always ends in `.json`. -/
theorem strEndsWith_mkFileName (fid : String) :
    strEndsWith (mkFileName fid) ".json" = true := by
  unfold strEndsWith mkFileName
  rw [show (fid ++ ".json").data = fid.data ++ ".json".data from rfl]
  rw [List.isSuffixOf_iff_suffix]
  exact List.suffix_append _ _

/-- A freshly created document is a processed (file, `.json`) entry of its
folder. -/
theorem isJsonFile_created (fid : String) (co : Option Entity) :
    isJsonFile ⟨mkFileName fid, "file", co⟩ = true := by
  simp [isJsonFile, strEndsWith_mkFileName]

/-- Appending a freshly created document extends the folder's listing
enumeration by exactly its entity. -/
theorem parsedDocs_append (folder : List StoredFile) (e : Entity) (fid : String) :
    parsedDocs (folder ++ [⟨mkFileName fid, "file", some e⟩]) =
      parsedDocs folder ++ [e] := by
  simp [parsedDocs, List.filterMap_append, isJsonFile_created]

/-- C9 (amended): for every valid input, create followed by get — or by the
listing enumeration (listAll), which becomes exactly the previous enumeration
plus the new document — returns a document whose caller-supplied fields equal
the input, except that a missing or empty `imageUrl` is normalized to null,
with the identifier and creation timestamp assigned by the system. -/
theorem create_get_roundtrip (postsF commentsF likesF : List StoredFile)
    (a t i pid u ct : Option String) (fid : String) (now : Int) :
    (∀ e st, (∀ f ∈ postsF, (f.name == mkFileName fid) = false) →
       createPost postsF a t i fid now = (.created e, st) →
       getById st fid = some e ∧ parsedDocs st = parsedDocs postsF ++ [e] ∧
       e.author = a ∧ e.text = t ∧
       e.imageUrl = (if truthy i then i else none) ∧ e.id = fid ∧ e.createdAt = now) ∧
    (∀ e st, (∀ f ∈ commentsF, (f.name == mkFileName fid) = false) →
       createComment commentsF pid u ct fid now = (.created e, st) →
       getById st fid = some e ∧ parsedDocs st = parsedDocs commentsF ++ [e] ∧
       e.postId = pid ∧ e.user = u ∧ e.text = ct ∧
       e.id = fid ∧ e.createdAt = now) ∧
    (∀ e st, (∀ f ∈ likesF, (f.name == mkFileName fid) = false) →
       createLike likesF pid u fid now = .ok (.created e, st) →
       getById st fid = some e ∧ parsedDocs st = parsedDocs likesF ++ [e] ∧
       e.postId = pid ∧ e.user = u ∧
       e.id = fid ∧ e.createdAt = now) := by
  refine ⟨?_, ?_, ?_⟩
  · intro e st hfresh hc
    cases ha : truthy a <;> cases ht : truthy t <;> simp [createPost, ha, ht] at hc
    obtain ⟨he, hst⟩ := hc
    subst he
    subst hst
    exact ⟨getById_append _ hfresh, parsedDocs_append _ _ _, rfl, rfl, by simp [ht],
      rfl, rfl⟩
  · intro e st hfresh hc
    cases h1 : truthy pid <;> cases h2 : truthy u <;> cases h3 : truthy ct <;>
      simp [createComment, h1, h2, h3] at hc
    obtain ⟨he, hst⟩ := hc
    subst he
    subst hst
    exact ⟨getById_append _ hfresh, parsedDocs_append _ _ _, rfl, rfl, rfl, rfl, rfl⟩
  · intro e st hfresh hc
    cases h1 : truthy pid <;> cases h2 : truthy u <;> simp [createLike, h1, h2] at hc
    cases hlb : listBy likesF (pid.getD "") (cutoff now) with
    | error er => simp [hlb] at hc
    | ok ex =>
      cases hf : ex.find? (fun x => x.user == u) with
      | some y => simp [hlb, hf] at hc
      | none =>
        simp [hlb, hf] at hc
        obtain ⟨he, hst⟩ := hc
        subst he
        subst hst
        exact ⟨getById_append _ hfresh, parsedDocs_append _ _ _, rfl, rfl, rfl, rfl⟩

/-- Witness for `create_get_roundtrip`: a post with a non-empty image URL
round-trips intact through both get and the listing enumeration. -/
theorem create_get_roundtrip_witness :
    getById [⟨mkFileName "id1", "file", some postEntW⟩] "id1" = some postEntW ∧
    parsedDocs [⟨mkFileName "id1", "file", some postEntW⟩] = parsedDocs [] ++ [postEntW] ∧
    postEntW.author = some "alice" ∧ postEntW.text = some "hi" ∧
    postEntW.imageUrl = (if truthy (some "http://x") then some "http://x" else none) ∧
    postEntW.id = "id1" ∧ postEntW.createdAt = 42 :=
  (create_get_roundtrip [] [] [] (some "alice") (some "hi") (some "http://x")
      (some "p1") (some "bob") (some "hey") "id1" 42).1
    postEntW [⟨mkFileName "id1", "file", some postEntW⟩] (by simp) (by decide)

/-- Inversion of `Except.map` on an error result. -/
theorem map_eq_error {α β : Type} {g : α → β} {x : Except String α} {e : String}
    (h : Except.map g x = .error e) : x = .error e := by
  cases x with
  | error e' =>
    simp only [Except.map, Except.error.injEq] at h
    rw [h]
  | ok a => simp [Except.map] at h

/-- Skipped entries contribute nothing to the `listBy` collection loop. -/
theorem listByCollect_skip (f : StoredFile) (hf : isJsonFile f = false)
    (v : String) (c : Int) (l2 : List StoredFile) : ∀ l1 : List StoredFile,
    listByCollect v c (l1 ++ f :: l2) = listByCollect v c (l1 ++ l2) := by
  intro l1
  induction l1 with
  | nil => simp [listByCollect, hf]
  | cons g l1 ih =>
    cases hg : isJsonFile g with
    | false => simp [listByCollect, hg, ih]
    | true =>
      cases hcg : g.content with
      | none => simp [listByCollect, hg, hcg]
      | some obj => simp [listByCollect, hg, hcg, ih]

/-- Skipped entries contribute nothing to the feed's post-collection loop. -/
theorem collectPosts_skip (f : StoredFile) (hf : isJsonFile f = false)
    (c : Int) (l2 : List StoredFile) : ∀ l1 : List StoredFile,
    collectPosts c (l1 ++ f :: l2) = collectPosts c (l1 ++ l2) := by
  intro l1
  induction l1 with
  | nil => simp [collectPosts, hf]
  | cons g l1 ih =>
    cases hg : isJsonFile g with
    | false => simp [collectPosts, hg, ih]
    | true =>
      cases hcg : g.content with
      | none => simp [collectPosts, hg, hcg]
      | some obj => simp [collectPosts, hg, hcg, ih]

/-- The cleanup sweep carries a skipped entry through untouched: the sweep of
a folder with the entry inserted errors exactly when the sweep without it
errors, and on success it deletes the same documents and keeps the entry. -/
theorem sweepFolder_skip (c : Int) (f : StoredFile) (hf : isJsonFile f = false)
    (l2 : List StoredFile) : ∀ l1 : List StoredFile,
    (∀ e, sweepFolder c (l1 ++ l2) = .error e → sweepFolder c (l1 ++ f :: l2) = .error e) ∧
    (∀ r n, sweepFolder c (l1 ++ l2) = .ok (r, n) →
       ∃ r1 r2, r = r1 ++ r2 ∧ sweepFolder c (l1 ++ f :: l2) = .ok (r1 ++ f :: r2, n)) := by
  intro l1
  induction l1 with
  | nil =>
    constructor
    · intro e he
      simp only [List.nil_append] at he ⊢
      simp [sweepFolder, hf, he, Except.map]
    · intro r n hr
      simp only [List.nil_append] at hr ⊢
      exact ⟨[], r, rfl, by simp [sweepFolder, hf, hr, Except.map]⟩
  | cons g l1 ih =>
    obtain ⟨ihE, ihO⟩ := ih
    constructor
    · intro e he
      simp only [List.cons_append] at he ⊢
      cases hg : isJsonFile g with
      | false =>
        simp only [sweepFolder, hg, Bool.false_eq_true, if_false] at he ⊢
        have hrec := map_eq_error he
        rw [ihE e hrec]
        rfl
      | true =>
        cases hcg : g.content with
        | none =>
          simp only [sweepFolder, hg, if_true, hcg] at he ⊢
          exact he
        | some obj =>
          cases hex : sweepExpiredTest obj.createdAt c with
          | true =>
            simp only [sweepFolder, hg, if_true, hcg, hex] at he ⊢
            have hrec := map_eq_error he
            rw [ihE e hrec]
            rfl
          | false =>
            simp only [sweepFolder, hg, if_true, hcg, hex, Bool.false_eq_true,
              if_false] at he ⊢
            have hrec := map_eq_error he
            rw [ihE e hrec]
            rfl
    · intro r n hr
      simp only [List.cons_append] at hr ⊢
      cases hg : isJsonFile g with
      | false =>
        simp only [sweepFolder, hg, Bool.false_eq_true, if_false] at hr ⊢
        obtain ⟨⟨r', n'⟩, hrec, hgr⟩ := map_eq_ok hr
        simp only [Prod.mk.injEq] at hgr
        obtain ⟨r1, r2, hsplit, hput⟩ := ihO r' n' hrec
        refine ⟨g :: r1, r2, ?_, ?_⟩
        · rw [← hgr.1, hsplit]; rfl
        · rw [hput, ← hgr.2]; rfl
      | true =>
        cases hcg : g.content with
        | none => simp [sweepFolder, hg, hcg] at hr
        | some obj =>
          cases hex : sweepExpiredTest obj.createdAt c with
          | true =>
            simp only [sweepFolder, hg, if_true, hcg, hex] at hr ⊢
            obtain ⟨⟨r', n'⟩, hrec, hgr⟩ := map_eq_ok hr
            simp only [Prod.mk.injEq] at hgr
            obtain ⟨r1, r2, hsplit, hput⟩ := ihO r' n' hrec
            refine ⟨r1, r2, ?_, ?_⟩
            · rw [← hgr.1, hsplit]
            · rw [hput, ← hgr.2]; rfl
          | false =>
            simp only [sweepFolder, hg, if_true, hcg, hex, Bool.false_eq_true,
              if_false] at hr ⊢
            obtain ⟨⟨r', n'⟩, hrec, hgr⟩ := map_eq_ok hr
            simp only [Prod.mk.injEq] at hgr
            obtain ⟨r1, r2, hsplit, hput⟩ := ihO r' n' hrec
            refine ⟨g :: r1, r2, ?_, ?_⟩
            · rw [← hgr.1, hsplit]; rfl
            · rw [hput, ← hgr.2]; rfl

/-- C10: an entry whose type is not "file" or whose name does not end in
`.json` is silently skipped by every enumeration: the like/comment listing
and the feed's post collection are unchanged by its presence (it is never
fetched, parsed or counted — even an unparseable body causes no error), and
the cleanup sweep deletes the same documents, counts the same total, and
leaves the entry in place. -/
theorem enumeration_skips_non_json (l1 l2 : List StoredFile) (f : StoredFile)
    (hf : isJsonFile f = false) :
    (∀ v c, listBy (l1 ++ f :: l2) v c = listBy (l1 ++ l2) v c) ∧
    (∀ c, collectPosts c (l1 ++ f :: l2) = collectPosts c (l1 ++ l2)) ∧
    (∀ c, Except.map Prod.snd (sweepFolder c (l1 ++ f :: l2)) =
       Except.map Prod.snd (sweepFolder c (l1 ++ l2))) ∧
    (∀ c r n, sweepFolder c (l1 ++ f :: l2) = .ok (r, n) → f ∈ r) := by
  refine ⟨?_, ?_, ?_, ?_⟩
  · intro v c
    unfold listBy
    rw [listByCollect_skip f hf v c l2 l1]
  · intro c
    exact collectPosts_skip f hf c l2 l1
  · intro c
    obtain ⟨hE, hO⟩ := sweepFolder_skip c f hf l2 l1
    cases hsw : sweepFolder c (l1 ++ l2) with
    | error e => rw [hE e hsw]
    | ok p =>
      obtain ⟨r1, r2, hsplit, hput⟩ := hO p.1 p.2 (by rw [hsw])
      rw [hput]
      simp [Except.map]
  · intro c r n hr
    obtain ⟨hE, hO⟩ := sweepFolder_skip c f hf l2 l1
    cases hsw : sweepFolder c (l1 ++ l2) with
    | error e =>
      rw [hE e hsw] at hr
      exact Except.noConfusion hr
    | ok p =>
      obtain ⟨r1, r2, hsplit, hput⟩ := hO p.1 p.2 (by rw [hsw])
      rw [hput] at hr
      have : r1 ++ f :: r2 = r := (Prod.mk.injEq _ _ _ _).mp (Except.ok.inj hr) |>.1
      rw [← this]
      exact List.mem_append.mpr (Or.inr (List.mem_cons_self f r2))

/-- Witness for `enumeration_skips_non_json`: a `.txt` file with an
unparseable body sits in the likes folder without affecting listing, feed
collection or cleanup, and survives the sweep. -/
theorem enumeration_skips_non_json_witness :
    listBy ([] ++ txtFileW :: likesFW) "p1" 0 = listBy ([] ++ likesFW) "p1" 0 ∧
    collectPosts 0 ([] ++ txtFileW :: likesFW) = collectPosts 0 ([] ++ likesFW) ∧
    Except.map Prod.snd (sweepFolder 0 ([] ++ txtFileW :: likesFW)) =
      Except.map Prod.snd (sweepFolder 0 ([] ++ likesFW)) ∧
    txtFileW ∈ [txtFileW, ⟨"l1.json", "file", some likeEntW⟩] := by
  have h := enumeration_skips_non_json [] likesFW txtFileW (by decide)
  exact ⟨h.1 "p1" 0, h.2.1 0, h.2.2.1 0,
    h.2.2.2 0 [txtFileW, ⟨"l1.json", "file", some likeEntW⟩] 0 (by decide)⟩

/-- A successful `listBy` collection returns exactly the matching visible
entities, in directory order. -/
theorem listByCollect_ok {v : String} {c : Int} : ∀ {folder : List StoredFile}
    {l : List Entity}, listByCollect v c folder = .ok l → l = specMatching folder v c := by
  intro folder
  induction folder with
  | nil =>
    intro l h
    simp only [listByCollect, Except.ok.injEq] at h
    simp [← h, specMatching, parsedDocs]
  | cons f rest ih =>
    intro l h
    cases hj : isJsonFile f with
    | false =>
      rw [listByCollect, if_neg (by simp [hj])] at h
      simp [specMatching, parsedDocs, List.filterMap_cons, hj]
      rw [ih h]
      simp [specMatching, parsedDocs]
    | true =>
      cases hc : f.content with
      | none => simp [listByCollect, hj, hc] at h
      | some obj =>
        rw [listByCollect, if_pos (by simp [hj]), hc] at h
        obtain ⟨l', hrec, heq⟩ := map_eq_ok h
        rw [← heq, ih hrec]
        cases hcond : (obj.postId == some v && listByVisibleTest obj.createdAt c) with
        | true =>
          simp [specMatching, parsedDocs, List.filterMap_cons, List.filter_cons, hj, hc, hcond]
        | false =>
          simp [specMatching, parsedDocs, List.filterMap_cons, List.filter_cons, hj, hc, hcond]

/-- A successful `listBy` is the ascending sort of the matching visible
entities. -/
theorem listBy_ok {folder : List StoredFile} {v : String} {c : Int} {out : List Entity}
    (h : listBy folder v c = .ok out) :
    out = List.insertionSort ascRel (specMatching folder v c) := by
  obtain ⟨l, hrec, heq⟩ := map_eq_ok h
  rw [← heq, listByCollect_ok hrec]

/-- A successful feed post collection returns exactly the visible posts, in
directory order. -/
theorem collectPosts_ok {c : Int} : ∀ {folder : List StoredFile} {l : List Entity},
    collectPosts c folder = .ok l → l = visiblePostsSpec folder c := by
  intro folder
  induction folder with
  | nil =>
    intro l h
    simp only [collectPosts, Except.ok.injEq] at h
    simp [← h, visiblePostsSpec, parsedDocs]
  | cons f rest ih =>
    intro l h
    cases hj : isJsonFile f with
    | false =>
      rw [collectPosts, if_neg (by simp [hj])] at h
      rw [ih h]
      simp [visiblePostsSpec, parsedDocs, List.filterMap_cons, hj]
    | true =>
      cases hc : f.content with
      | none => simp [collectPosts, hj, hc] at h
      | some p =>
        rw [collectPosts, if_pos (by simp [hj]), hc] at h
        obtain ⟨l', hrec, heq⟩ := map_eq_ok h
        rw [← heq, ih hrec]
        cases hcond : feedVisibleTest p.createdAt c with
        | true =>
          simp [visiblePostsSpec, parsedDocs, List.filterMap_cons, List.filter_cons, hj, hc, hcond]
        | false =>
          simp [visiblePostsSpec, parsedDocs, List.filterMap_cons, List.filter_cons, hj, hc, hcond]

/-- The attachment loop keeps the retained posts, in order. -/
theorem attachCounts_map_post {lF cF : List StoredFile} {c : Int} :
    ∀ {ps : List Entity} {fps : List FeedPost},
    attachCounts lF cF c ps = .ok fps → fps.map FeedPost.post = ps := by
  intro ps
  induction ps with
  | nil =>
    intro fps h
    simp only [attachCounts, Except.ok.injEq] at h
    simp [← h]
  | cons p rest ih =>
    intro fps h
    cases hcb : countBy lF p.id c with
    | error e => simp [attachCounts, hcb] at h
    | ok lk =>
      cases hlb : listBy cF p.id c with
      | error e => simp [attachCounts, hcb, hlb] at h
      | ok cs =>
        cases hat : attachCounts lF cF c rest with
        | error e => simp [attachCounts, hcb, hlb, hat] at h
        | ok tail =>
          simp only [attachCounts, hcb, hlb, hat, Except.ok.injEq] at h
          rw [← h]
          simp [ih hat]

/-- Each feed element carries the counts `attachCounts` computed for its own
post from the likes and comments folders. -/
theorem attachCounts_mem {lF cF : List StoredFile} {c : Int} :
    ∀ {ps : List Entity} {fps : List FeedPost},
    attachCounts lF cF c ps = .ok fps → ∀ fp ∈ fps,
      ∃ lk cs, countBy lF fp.post.id c = .ok lk ∧ listBy cF fp.post.id c = .ok cs ∧
        fp.likes = lk ∧ fp.comments = cs ∧ fp.commentCount = cs.length := by
  intro ps
  induction ps with
  | nil =>
    intro fps h fp hm
    simp only [attachCounts, Except.ok.injEq] at h
    rw [← h] at hm
    exact absurd hm (List.not_mem_nil fp)
  | cons p rest ih =>
    intro fps h fp hm
    cases hcb : countBy lF p.id c with
    | error e => simp [attachCounts, hcb] at h
    | ok lk =>
      cases hlb : listBy cF p.id c with
      | error e => simp [attachCounts, hcb, hlb] at h
      | ok cs =>
        cases hat : attachCounts lF cF c rest with
        | error e => simp [attachCounts, hcb, hlb, hat] at h
        | ok tail =>
          simp only [attachCounts, hcb, hlb, hat, Except.ok.injEq] at h
          rw [← h] at hm
          rcases List.mem_cons.mp hm with rfl | hm'
          · exact ⟨lk, cs, hcb, hlb, rfl, rfl, rfl⟩
          · exact ih hat fp hm'

/-- C3: every feed element's `likes` equals the number of currently-visible
likes with matching postId, its `comments` are exactly the currently-visible
comments with matching postId sorted ascending by creation timestamp, and its
`commentCount` is the length of that list. -/
theorem feed_counts_per_post (postsF likesF commentsF : List StoredFile) (now : Int)
    (fps : List FeedPost) (fp : FeedPost)
    (h : getFeed postsF likesF commentsF now = .ok fps) (hm : fp ∈ fps) :
    fp.likes = (specMatching likesF fp.post.id (cutoff now)).length ∧
    fp.comments.Perm (specMatching commentsF fp.post.id (cutoff now)) ∧
    List.Sorted ascRel fp.comments ∧
    fp.commentCount = fp.comments.length := by
  unfold getFeed at h
  cases hcp : collectPosts (cutoff now) postsF with
  | error e => simp [hcp] at h
  | ok ps =>
    simp only [hcp] at h
    obtain ⟨lk, cs, hcb, hlb, hlk, hcs, hcc⟩ := attachCounts_mem h fp hm
    obtain ⟨out, hout, hlen⟩ := map_eq_ok hcb
    have hperm : out.Perm (specMatching likesF fp.post.id (cutoff now)) := by
      rw [listBy_ok hout]
      exact List.perm_insertionSort ascRel _
    refine ⟨?_, ?_, ?_, ?_⟩
    · rw [hlk, ← hlen, hperm.length_eq]
    · rw [hcs, listBy_ok hlb]
      exact List.perm_insertionSort ascRel _
    · rw [hcs, listBy_ok hlb]
      exact List.sorted_insertionSort ascRel _
    · rw [hcc, hcs]

/-- Witness for `feed_counts_per_post`: one post with one like and two
comments, the comments coming back oldest first. -/
theorem feed_counts_per_post_witness :
    fpW3.likes = (specMatching likesFW fpW3.post.id (cutoff 100000000)).length ∧
    fpW3.comments.Perm (specMatching commentsFW fpW3.post.id (cutoff 100000000)) ∧
    List.Sorted ascRel fpW3.comments ∧
    fpW3.commentCount = fpW3.comments.length :=
  feed_counts_per_post [postFile "p1" 20000000] likesFW commentsFW 100000000 [fpW3] fpW3
    (by decide) (by decide)

/-- C2: a successful feed read returns exactly the currently-visible posts,
sorted descending by creation timestamp; in particular three in-window posts
at t1 < t2 < t3 come back as [t3, t2, t1] and a 25h-old post is absent. -/
theorem getFeed_window_and_order :
    (∀ postsF likesF commentsF now fps,
       getFeed postsF likesF commentsF now = .ok fps →
       (fps.map FeedPost.post).Perm (visiblePostsSpec postsF (cutoff now)) ∧
       List.Sorted descRel (fps.map FeedPost.post)) ∧
    (∀ now t1 t2 t3, t1 < t2 → t2 < t3 → cutoff now ≤ t1 →
       getFeed [postFile "p2" t2, postFile "p0" (now - 90000000),
                postFile "p3" t3, postFile "p1" t1] [] [] now =
         .ok [bareFeedPost "p3" t3, bareFeedPost "p2" t2, bareFeedPost "p1" t1]) := by
  constructor
  · intro postsF likesF commentsF now fps h
    unfold getFeed at h
    cases hcp : collectPosts (cutoff now) postsF with
    | error e => simp [hcp] at h
    | ok ps =>
      simp only [hcp] at h
      have hmap := attachCounts_map_post h
      rw [hmap, collectPosts_ok hcp]
      exact ⟨List.perm_insertionSort descRel _, List.sorted_insertionSort descRel _⟩
  · intro now t1 t2 t3 h12 h23 hw1
    have hw2 : cutoff now ≤ t2 := le_trans hw1 (le_of_lt h12)
    have hw3 : cutoff now ≤ t3 := le_trans hw2 (le_of_lt h23)
    have hv1 : feedVisibleTest t1 (cutoff now) = true := by
      simp [feedVisibleTest, hw1]
    have hv2 : feedVisibleTest t2 (cutoff now) = true := by
      simp [feedVisibleTest, hw2]
    have hv3 : feedVisibleTest t3 (cutoff now) = true := by
      simp [feedVisibleTest, hw3]
    have hv0 : feedVisibleTest (now - 90000000) (cutoff now) = false := by
      simp only [feedVisibleTest, cutoff, TTL_MS, decide_eq_false_iff_not]
      omega
    have hj2 : isJsonFile ⟨"p2" ++ ".json", "file", some (postEnt "p2" t2)⟩ = true := rfl
    have hj0 : isJsonFile ⟨"p0" ++ ".json", "file", some (postEnt "p0" (now - 90000000))⟩ = true := rfl
    have hj3 : isJsonFile ⟨"p3" ++ ".json", "file", some (postEnt "p3" t3)⟩ = true := rfl
    have hj1 : isJsonFile ⟨"p1" ++ ".json", "file", some (postEnt "p1" t1)⟩ = true := rfl
    have hcp : collectPosts (cutoff now)
        [postFile "p2" t2, postFile "p0" (now - 90000000),
         postFile "p3" t3, postFile "p1" t1] =
        .ok [postEnt "p2" t2, postEnt "p3" t3, postEnt "p1" t1] := by
      simp only [collectPosts, postFile, Except.map]
      simp only [hj2, hj0, hj3, hj1, if_true]
      simp [postEnt, hv0, hv1, hv2, hv3]
    have ht13 : t1 ≤ t3 := by omega
    have ht12 : t1 ≤ t2 := le_of_lt h12
    have hn32 : ¬ t3 ≤ t2 := by omega
    have hsort : List.insertionSort descRel [postEnt "p2" t2, postEnt "p3" t3, postEnt "p1" t1] =
        [postEnt "p3" t3, postEnt "p2" t2, postEnt "p1" t1] := by
      simp [List.insertionSort, List.orderedInsert, descRel, postEnt, ht13, ht12, hn32]
    unfold getFeed
    rw [hcp]
    simp only [hsort]
    simp [attachCounts, countBy, listBy, listByCollect, Except.map, bareFeedPost,
      List.insertionSort]

/-- Witness for `getFeed_window_and_order`: both parts at `now = 100000000`,
posts at 20000000 < 30000000 < 40000000 and a stale post at 10000000. -/
theorem getFeed_window_and_order_witness :
    ((fpsW.map FeedPost.post).Perm (visiblePostsSpec postsW (cutoff 100000000)) ∧
     List.Sorted descRel (fpsW.map FeedPost.post)) ∧
    getFeed postsW [] [] 100000000 =
      .ok [bareFeedPost "p3" 40000000, bareFeedPost "p2" 30000000, bareFeedPost "p1" 20000000] := by
  constructor
  · exact getFeed_window_and_order.1 postsW [] [] 100000000 fpsW (by decide)
  · exact getFeed_window_and_order.2 100000000 20000000 30000000 40000000
      (by decide) (by decide) (by decide)

/-- A processed entry whose body fails to parse makes the whole `listBy`
collection loop throw. -/
theorem listByCollect_err {v : String} {c : Int} {f : StoredFile} :
    ∀ {folder : List StoredFile}, f ∈ folder → isJsonFile f = true → f.content = none →
    ∃ msg, listByCollect v c folder = .error msg := by
  intro folder
  induction folder with
  | nil =>
    intro hm
    exact absurd hm (List.not_mem_nil f)
  | cons g rest ih =>
    intro hm hj hc
    rcases List.mem_cons.mp hm with rfl | hm'
    · exact ⟨"JSON parse error", by simp [listByCollect, hj, hc]⟩
    · cases hjg : isJsonFile g with
      | false =>
        obtain ⟨m, hmm⟩ := ih hm' hj hc
        exact ⟨m, by simp [listByCollect, hjg, hmm]⟩
      | true =>
        cases hcg : g.content with
        | none => exact ⟨"JSON parse error", by simp [listByCollect, hjg, hcg]⟩
        | some obj =>
          obtain ⟨m, hmm⟩ := ih hm' hj hc
          exact ⟨m, by simp [listByCollect, hjg, hcg, hmm, Except.map]⟩

/-- A processed entry whose body fails to parse makes the feed's post
collection loop throw. -/
theorem collectPosts_err {c : Int} {f : StoredFile} :
    ∀ {folder : List StoredFile}, f ∈ folder → isJsonFile f = true → f.content = none →
    ∃ msg, collectPosts c folder = .error msg := by
  intro folder
  induction folder with
  | nil =>
    intro hm
    exact absurd hm (List.not_mem_nil f)
  | cons g rest ih =>
    intro hm hj hc
    rcases List.mem_cons.mp hm with rfl | hm'
    · exact ⟨"JSON parse error", by simp [collectPosts, hj, hc]⟩
    · cases hjg : isJsonFile g with
      | false =>
        obtain ⟨m, hmm⟩ := ih hm' hj hc
        exact ⟨m, by simp [collectPosts, hjg, hmm]⟩
      | true =>
        cases hcg : g.content with
        | none => exact ⟨"JSON parse error", by simp [collectPosts, hjg, hcg]⟩
        | some obj =>
          obtain ⟨m, hmm⟩ := ih hm' hj hc
          exact ⟨m, by simp [collectPosts, hjg, hcg, hmm, Except.map]⟩

/-- C6: if any document enumerated during a feed read fails to parse — a post
file, or (once any post is retained) a like or comment file — the whole
aggregation fails with an error and no partial feed is returned; the bad
entry is never silently skipped. -/
theorem feed_parse_failure_fatal :
    (∀ postsF likesF commentsF : List StoredFile, ∀ now : Int, ∀ f : StoredFile,
       f ∈ postsF → isJsonFile f = true → f.content = none →
       ∃ msg, getFeed postsF likesF commentsF now = .error msg) ∧
    (∀ postsF likesF commentsF : List StoredFile, ∀ now : Int, ∀ f : StoredFile,
       ∀ ps : List Entity, ∀ p : Entity,
       collectPosts (cutoff now) postsF = .ok ps → p ∈ ps →
       f ∈ likesF → isJsonFile f = true → f.content = none →
       ∃ msg, getFeed postsF likesF commentsF now = .error msg) ∧
    (∀ postsF likesF commentsF : List StoredFile, ∀ now : Int, ∀ f : StoredFile,
       ∀ ps : List Entity, ∀ p : Entity,
       collectPosts (cutoff now) postsF = .ok ps → p ∈ ps →
       f ∈ commentsF → isJsonFile f = true → f.content = none →
       ∃ msg, getFeed postsF likesF commentsF now = .error msg) := by
  refine ⟨?_, ?_, ?_⟩
  · intro postsF likesF commentsF now f hm hj hc
    obtain ⟨m, hmm⟩ := collectPosts_err (c := cutoff now) hm hj hc
    exact ⟨m, by simp [getFeed, hmm]⟩
  · intro postsF likesF commentsF now f ps p hcp hp hm hj hc
    have hg : getFeed postsF likesF commentsF now =
        attachCounts likesF commentsF (cutoff now) (List.insertionSort descRel ps) := by
      simp [getFeed, hcp]
    have hps : p ∈ List.insertionSort descRel ps := by
      rw [List.mem_insertionSort]
      exact hp
    cases hs : List.insertionSort descRel ps with
    | nil =>
      rw [hs] at hps
      exact absurd hps (List.not_mem_nil p)
    | cons q rest' =>
      obtain ⟨m, hmm⟩ := listByCollect_err (v := q.id) (c := cutoff now) hm hj hc
      have hcberr : countBy likesF q.id (cutoff now) = .error m := by
        simp [countBy, listBy, hmm, Except.map]
      refine ⟨m, ?_⟩
      rw [hg, hs]
      simp [attachCounts, hcberr]
  · intro postsF likesF commentsF now f ps p hcp hp hm hj hc
    have hg : getFeed postsF likesF commentsF now =
        attachCounts likesF commentsF (cutoff now) (List.insertionSort descRel ps) := by
      simp [getFeed, hcp]
    have hps : p ∈ List.insertionSort descRel ps := by
      rw [List.mem_insertionSort]
      exact hp
    cases hs : List.insertionSort descRel ps with
    | nil =>
      rw [hs] at hps
      exact absurd hps (List.not_mem_nil p)
    | cons q rest' =>
      cases hcb : countBy likesF q.id (cutoff now) with
      | error e =>
        refine ⟨e, ?_⟩
        rw [hg, hs]
        simp [attachCounts, hcb]
      | ok lk =>
        obtain ⟨m, hmm⟩ := listByCollect_err (v := q.id) (c := cutoff now) hm hj hc
        have hlberr : listBy commentsF q.id (cutoff now) = .error m := by
          simp [listBy, hmm, Except.map]
        refine ⟨m, ?_⟩
        rw [hg, hs]
        simp [attachCounts, hcb, hlberr]

/-- Witness for `feed_parse_failure_fatal`: a posts folder with one
unparseable `.json` file makes the feed read fail. -/
theorem feed_parse_failure_fatal_witness :
    ∃ msg, getFeed [badFileW] [] [] 0 = .error msg :=
  feed_parse_failure_fatal.1 [badFileW] [] [] 0 badFileW (by decide) (by decide) (by decide)

end Chill
